import Mathlib

/-!
Verification of the path-resolution and caching gateway of a virtual
filesystem over a remote block-addressed document store.

The definitions below are shallow embeddings of the TypeScript source:
`SiYuanApiClient.convertPathToRealPath` / `getIDsByHPath` / `listFiles`
(the resolver client), `FileCache` (the TTL cache), and
`SiyuanFileSystemProvider` (the filesystem facade).  JavaScript string
operations are modelled at the character-list level so that their exact
semantics (first-occurrence `replace`, `split('/')`, truthiness of the
empty string, `||` on numbers) are captured faithfully.
-/

namespace SiYuanFS

/-! ## JavaScript string primitives, modelled over `List Char` -/

/-- JS `s.split('/')`: split a character list at every `'/'`. -/
def splitSlash : List Char → List (List Char)
  | [] => [[]]
  | c :: rest =>
    if c = '/' then [] :: splitSlash rest
    else
      match splitSlash rest with
      | [] => [[c]]
      | seg :: segs => (c :: seg) :: segs

/-- JS `path.split('/').filter(Boolean)`: the non-empty segments of a path. -/
def splitPath (s : String) : List String :=
  ((splitSlash s.data).map fun cs => String.mk cs).filter fun t => t ≠ ""

/-- JS `array.join('/')`. -/
def joinSlash : List String → String
  | [] => ""
  | [s] => s
  | s :: rest => s ++ "/" ++ joinSlash rest

/-- JS `s.endsWith('.md')`. -/
def endsWithMd (s : String) : Bool :=
  match s.data.reverse with
  | 'd' :: 'm' :: '.' :: _ => true
  | _ => false

/-- JS `s.replace(/\x2emd$/, '')`: drop a trailing `.md` when present. -/
def stripMd (s : String) : String :=
  if endsWithMd s then String.mk s.data.dropLast.dropLast.dropLast else s

/-- JS `s.replace(pat, '')` for a plain-string pattern: remove the first
occurrence of `pat`, if any. -/
def removeFirstOcc (pat : List Char) : List Char → List Char
  | [] => []
  | c :: rest =>
    if pat.isPrefixOf (c :: rest) then (c :: rest).drop pat.length
    else c :: removeFirstOcc pat rest

/-- JS `name.replace('.sy', '')`. -/
def removeFirstSy (s : String) : String :=
  String.mk (removeFirstOcc ['.', 's', 'y'] s.data)

/-- JS `name.replace('.md', '')`. -/
def removeFirstMd (s : String) : String :=
  String.mk (removeFirstOcc ['.', 'm', 'd'] s.data)

/-! ## Basic lemmas about the string primitives -/

theorem string_append_data (a b : String) : (a ++ b).data = a.data ++ b.data := rfl

theorem string_mk_data (s : String) : String.mk s.data = s := rfl

theorem string_append_assoc (a b c : String) : a ++ b ++ c = a ++ (b ++ c) := by
  apply String.ext
  simp [string_append_data, List.append_assoc]

theorem string_ne_empty_of_data_ne_nil {s : String} (h : s.data ≠ []) : s ≠ "" := by
  intro he
  apply h
  rw [he]

theorem append_md_endsWithMd (s : String) : endsWithMd (s ++ ".md") = true := by
  have hdata : (s ++ ".md").data = s.data ++ ['.', 'm', 'd'] := rfl
  unfold endsWithMd
  rw [hdata, List.reverse_append]
  rfl

theorem stripMd_append_md (s : String) : stripMd (s ++ ".md") = s := by
  unfold stripMd
  rw [append_md_endsWithMd]
  simp only [if_pos]
  apply String.ext
  have hdata : (s ++ ".md").data = s.data ++ ['.', 'm', 'd'] := rfl
  rw [hdata]
  simp [List.dropLast_append_cons]

theorem stripMd_of_not_endsWithMd {s : String} (h : endsWithMd s = false) :
    stripMd s = s := by
  unfold stripMd
  rw [h]
  simp

/-! ## The remote store and the path resolver (`convertPathToRealPath`) -/

/-- The remote store as seen by the resolver: the notebook listing
(`/api/notebook/lsNotebooks`, as (name, id) pairs in listing order) and the
hierarchical-path lookup (`/api/filetree/getIDsByHPath`, keyed by notebook id
and hierarchical path, returning zero or more block ids). -/
structure Remote where
  notebooks : List (String × String)
  hpathIds : String → String → List String

/-- Successful result of `convertPathToRealPath`. -/
structure ResolveOk where
  notebookId : String
  realPath : String
deriving DecidableEq

/-- Notebook-name resolution at the top of `convertPathToRealPath`: consult the
notebook cache; a missing (or JS-falsy, i.e. empty) id falls back to fetching
the notebook list and searching it by name.  Returns `none` exactly when the
code throws `Notebook not found`. -/
def lookupNotebookId (cache : List (String × String)) (r : Remote) (name : String) :
    Option String :=
  let cachedId : Option String :=
    match cache.lookup name with
    | some id => if id = "" then none else some id
    | none => none
  match cachedId with
  | some id => some id
  | none =>
    match r.notebooks.find? fun nb => nb.1 = name with
    | some nb => if nb.2 = "" then none else some nb.2
    | none => none

/-- JS ``currentPath ? currentPath + '/' + part : part``. -/
def extendPath (cp part : String) : String :=
  if cp = "" then part else cp ++ "/" ++ part

/-- JS ``realPath === '/' ? '/' + seg : realPath + '/' + seg``. -/
def appendReal (rp seg : String) : String :=
  if rp = "/" then "/" ++ seg else rp ++ "/" ++ seg

/-- The incremental loop of the document branch of `convertPathToRealPath`:
walk the post-notebook segments left to right, look up each cumulative
prefix (with a trailing `.md` stripped), append the first returned id to the
real path, and mark the last id with `.sy`. -/
def docLoop (r : Remote) (nbId : String) : List String → String → String → Except String String
  | [], _, rp => Except.ok rp
  | part :: rest, cp, rp =>
    let cp2 := extendPath cp part
    let hPath := "/" ++ stripMd cp2
    match r.hpathIds nbId hPath with
    | [] => Except.error ("Cannot find path: " ++ hPath)
    | pid :: _ =>
      let idExt := if rest = [] then pid ++ ".sy" else pid
      docLoop r nbId rest cp2 (appendReal rp idExt)

/-- The parent loop of the container branch of `convertPathToRealPath`: like
`docLoop` but over the parent segments only, never marking an id with `.sy`. -/
def parentLoop (r : Remote) (nbId : String) : List String → String → String → Except String String
  | [], _, rp => Except.ok rp
  | part :: rest, cp, rp =>
    let cp2 := extendPath cp part
    let hPath := "/" ++ stripMd cp2
    match r.hpathIds nbId hPath with
    | [] => Except.error ("Cannot find path: " ++ hPath)
    | pid :: _ => parentLoop r nbId rest cp2 (appendReal rp pid)

/-- The container branch of `convertPathToRealPath`: resolve the parent chain,
then resolve the container's own id from the full hierarchical path and append
it with the `.sy` marker. -/
def folderResolve (r : Remote) (nbId : String) (cleanParts : List String) :
    Except String String :=
  match parentLoop r nbId cleanParts.dropLast "" "/" with
  | Except.error e => Except.error e
  | Except.ok parentRealPath =>
    match r.hpathIds nbId ("/" ++ stripMd (joinSlash cleanParts)) with
    | [] =>
      Except.error ("Cannot find target document: " ++ ("/" ++ stripMd (joinSlash cleanParts)))
    | tid :: _ => Except.ok (appendReal parentRealPath (tid ++ ".sy"))

/-- The method `SiYuanApiClient.convertPathToRealPath`: convert a human-readable virtual
path to the notebook id and the id-chain real path. -/
def convertPathToRealPath (r : Remote) (cache : List (String × String)) (path : String) :
    Except String ResolveOk :=
  match splitPath path with
  | [] => Except.error "Invalid path format"
  | p0 :: rest =>
    match lookupNotebookId cache r p0 with
    | none => Except.error ("Notebook not found: " ++ p0)
    | some notebookId =>
      if h : rest = [] then Except.ok (ResolveOk.mk notebookId "/")
      else
        if endsWithMd (rest.getLast h) then
          match docLoop r notebookId rest "" "/" with
          | Except.error e => Except.error e
          | Except.ok rp => Except.ok (ResolveOk.mk notebookId rp)
        else
          match folderResolve r notebookId rest with
          | Except.error e => Except.error e
          | Except.ok rp => Except.ok (ResolveOk.mk notebookId rp)

/-! ## Specification-side view of the resolver: the id chain of a path -/

/-- The chain of first identifiers obtained by looking up each cumulative
human-readable prefix of the given segments; `none` when some lookup returns
zero identifiers. -/
def chainIds (r : Remote) (nbId : String) : List String → String → Option (List String)
  | [], _ => some []
  | part :: rest, cp =>
    let cp2 := extendPath cp part
    match r.hpathIds nbId ("/" ++ stripMd cp2) with
    | [] => none
    | pid :: _ => (chainIds r nbId rest cp2).map fun ids => pid :: ids

/-- Mark the last identifier of a chain with the `.sy` leaf marker. -/
def markLast : List String → List String
  | [] => []
  | i :: rest => if rest = [] then [i ++ ".sy"] else i :: markLast rest

/-- Fold a chain of ids onto a real-path accumulator, marking the last id. -/
def buildDoc : String → List String → String
  | rp, [] => rp
  | rp, i :: rest =>
    if rest = [] then appendReal rp (i ++ ".sy") else buildDoc (appendReal rp i) rest

/-- Fold a chain of ids onto a real-path accumulator without marking any id. -/
def buildParent : String → List String → String
  | rp, [] => rp
  | rp, i :: rest => buildParent (appendReal rp i) rest

/-- Cumulative human-readable path after folding segments into an accumulator. -/
def pathAfter (cp : String) (parts : List String) : String :=
  parts.foldl extendPath cp

/-! ## Unfolding equations for the loops -/

theorem docLoop_cons (r : Remote) (nbId part : String) (rest : List String) (cp rp : String) :
    docLoop r nbId (part :: rest) cp rp =
      match r.hpathIds nbId ("/" ++ stripMd (extendPath cp part)) with
      | [] => Except.error ("Cannot find path: " ++ ("/" ++ stripMd (extendPath cp part)))
      | pid :: _ =>
        docLoop r nbId rest (extendPath cp part)
          (appendReal rp (if rest = [] then pid ++ ".sy" else pid)) := rfl

theorem parentLoop_cons (r : Remote) (nbId part : String) (rest : List String) (cp rp : String) :
    parentLoop r nbId (part :: rest) cp rp =
      match r.hpathIds nbId ("/" ++ stripMd (extendPath cp part)) with
      | [] => Except.error ("Cannot find path: " ++ ("/" ++ stripMd (extendPath cp part)))
      | pid :: _ => parentLoop r nbId rest (extendPath cp part) (appendReal rp pid) := rfl

theorem chainIds_cons (r : Remote) (nbId part : String) (rest : List String) (cp : String) :
    chainIds r nbId (part :: rest) cp =
      match r.hpathIds nbId ("/" ++ stripMd (extendPath cp part)) with
      | [] => none
      | pid :: _ => (chainIds r nbId rest (extendPath cp part)).map fun ids => pid :: ids := rfl

/-! ## Bridges between the loops and the id chain -/

theorem chainIds_length (r : Remote) (nbId : String) :
    ∀ (parts : List String) (cp : String) (ids : List String),
      chainIds r nbId parts cp = some ids → ids.length = parts.length := by
  intro parts
  induction parts with
  | nil =>
    intro cp ids h
    simp only [chainIds, Option.some.injEq] at h
    simp [← h]
  | cons part rest ih =>
    intro cp ids h
    rw [chainIds_cons] at h
    cases hl : r.hpathIds nbId ("/" ++ stripMd (extendPath cp part)) with
    | nil => rw [hl] at h; simp at h
    | cons pid tl =>
      rw [hl] at h
      simp only [Option.map_eq_some'] at h
      obtain ⟨ids', h1, h2⟩ := h
      subst h2
      simp [ih _ _ h1]

theorem chainIds_some_ne_nil {r : Remote} {nbId : String} {parts : List String}
    {cp : String} {ids : List String} (hp : parts ≠ [])
    (h : chainIds r nbId parts cp = some ids) : ids ≠ [] := by
  intro hx
  subst hx
  have := chainIds_length r nbId parts cp [] h
  exact hp (List.eq_nil_of_length_eq_zero this.symm)

theorem docLoop_ok_iff (r : Remote) (nbId : String) :
    ∀ (parts : List String) (cp rp out : String),
      docLoop r nbId parts cp rp = Except.ok out ↔
        ∃ ids, chainIds r nbId parts cp = some ids ∧ out = buildDoc rp ids := by
  intro parts
  induction parts with
  | nil =>
    intro cp rp out
    simp [docLoop, chainIds, buildDoc, eq_comm]
  | cons part rest ih =>
    intro cp rp out
    rw [docLoop_cons, chainIds_cons]
    cases hl : r.hpathIds nbId ("/" ++ stripMd (extendPath cp part)) with
    | nil => simp
    | cons pid tl =>
      by_cases hr : rest = []
      · subst hr
        simp [docLoop, chainIds, buildDoc, eq_comm]
      · simp only [if_neg hr]
        rw [ih]
        constructor
        · rintro ⟨ids', h1, h2⟩
          have hne : ids' ≠ [] := chainIds_some_ne_nil hr h1
          refine ⟨pid :: ids', by rw [h1]; rfl, ?_⟩
          rw [h2]
          show buildDoc (appendReal rp pid) ids' = buildDoc rp (pid :: ids')
          rw [buildDoc, if_neg hne]
        · rintro ⟨ids, h1, h2⟩
          simp only [Option.map_eq_some'] at h1
          obtain ⟨ids', h3, h4⟩ := h1
          subst h4
          have hne : ids' ≠ [] := chainIds_some_ne_nil hr h3
          refine ⟨ids', h3, ?_⟩
          rw [h2]
          show buildDoc rp (pid :: ids') = buildDoc (appendReal rp pid) ids'
          rw [buildDoc, if_neg hne]

theorem parentLoop_ok_iff (r : Remote) (nbId : String) :
    ∀ (parts : List String) (cp rp out : String),
      parentLoop r nbId parts cp rp = Except.ok out ↔
        ∃ ids, chainIds r nbId parts cp = some ids ∧ out = buildParent rp ids := by
  intro parts
  induction parts with
  | nil =>
    intro cp rp out
    simp [parentLoop, chainIds, buildParent, eq_comm]
  | cons part rest ih =>
    intro cp rp out
    rw [parentLoop_cons, chainIds_cons]
    cases hl : r.hpathIds nbId ("/" ++ stripMd (extendPath cp part)) with
    | nil => simp
    | cons pid tl =>
      rw [ih]
      constructor
      · rintro ⟨ids', h1, h2⟩
        exact ⟨pid :: ids', by rw [h1]; rfl, h2⟩
      · rintro ⟨ids, h1, h2⟩
        simp only [Option.map_eq_some'] at h1
        obtain ⟨ids', h3, h4⟩ := h1
        subst h4
        exact ⟨ids', h3, h2⟩

theorem docLoop_error_msg (r : Remote) (nbId : String) :
    ∀ (parts : List String) (cp rp m : String),
      docLoop r nbId parts cp rp = Except.error m →
      ∃ t, m = "Cannot find path: " ++ t := by
  intro parts
  induction parts with
  | nil => intro cp rp m h; simp [docLoop] at h
  | cons part rest ih =>
    intro cp rp m h
    rw [docLoop_cons] at h
    cases hl : r.hpathIds nbId ("/" ++ stripMd (extendPath cp part)) with
    | nil =>
      rw [hl] at h
      simp only [Except.error.injEq] at h
      exact ⟨_, h.symm⟩
    | cons pid tl =>
      rw [hl] at h
      exact ih _ _ _ h

theorem parentLoop_error_msg (r : Remote) (nbId : String) :
    ∀ (parts : List String) (cp rp m : String),
      parentLoop r nbId parts cp rp = Except.error m →
      ∃ t, m = "Cannot find path: " ++ t := by
  intro parts
  induction parts with
  | nil => intro cp rp m h; simp [parentLoop] at h
  | cons part rest ih =>
    intro cp rp m h
    rw [parentLoop_cons] at h
    cases hl : r.hpathIds nbId ("/" ++ stripMd (extendPath cp part)) with
    | nil =>
      rw [hl] at h
      simp only [Except.error.injEq] at h
      exact ⟨_, h.symm⟩
    | cons pid tl =>
      rw [hl] at h
      exact ih _ _ _ h

theorem except_error_of_no_ok {ε α : Type} (e : Except ε α)
    (h : ∀ a, e ≠ Except.ok a) : ∃ m, e = Except.error m := by
  cases e with
  | error m => exact ⟨m, rfl⟩
  | ok a => exact absurd rfl (h a)

/-! ## Algebra of `joinSlash`, `extendPath` and `pathAfter` -/

theorem string_ne_of_data_length_ne {a b : String}
    (h : a.data.length ≠ b.data.length) : a ≠ b := by
  intro he
  subst he
  exact h rfl

theorem joinSlash_cons₂ (a : String) {l : List String} (h : l ≠ []) :
    joinSlash (a :: l) = a ++ "/" ++ joinSlash l := by
  cases l with
  | nil => exact absurd rfl h
  | cons b t => rfl

theorem joinSlash_ne_empty : ∀ {l : List String}, l ≠ [] → (∀ s ∈ l, s ≠ "") →
    joinSlash l ≠ "" := by
  intro l hl hs
  cases l with
  | nil => exact absurd rfl hl
  | cons a t =>
    cases t with
    | nil => exact hs a (by simp)
    | cons b t' =>
      rw [joinSlash_cons₂ a (by simp)]
      apply string_ne_empty_of_data_ne_nil
      simp [string_append_data]

theorem joinSlash_append_singleton : ∀ {l : List String}, l ≠ [] → ∀ (x : String),
    joinSlash (l ++ [x]) = joinSlash l ++ "/" ++ x := by
  intro l
  induction l with
  | nil => intro h; exact absurd rfl h
  | cons a t ih =>
    intro _ x
    cases t with
    | nil => rfl
    | cons b t' =>
      rw [List.cons_append, joinSlash_cons₂ a (by simp),
        joinSlash_cons₂ a (l := b :: t') (by simp), ih (by simp) x]
      simp [string_append_assoc]

theorem extendPath_joinSlash {l : List String} (hs : ∀ s ∈ l, s ≠ "") (x : String) :
    extendPath (joinSlash l) x = joinSlash (l ++ [x]) := by
  cases hl : l with
  | nil => rfl
  | cons a t =>
    rw [← hl, extendPath, if_neg (joinSlash_ne_empty (by rw [hl]; simp) hs),
      joinSlash_append_singleton (by rw [hl]; simp)]

theorem pathAfter_cons (cp a : String) (l : List String) :
    pathAfter cp (a :: l) = pathAfter (extendPath cp a) l := rfl

theorem pathAfter_ne_cases {l : List String} (hs : ∀ s ∈ l, s ≠ "") :
    ∀ cp : String, cp ≠ "" →
      pathAfter cp l = if l = [] then cp else cp ++ "/" ++ joinSlash l := by
  induction l with
  | nil => intro cp _; simp [pathAfter]
  | cons a t ih =>
    intro cp hcp
    rw [pathAfter_cons, extendPath, if_neg hcp]
    have ht : ∀ s ∈ t, s ≠ "" := fun s hm => hs s (by simp [hm])
    rw [ih ht (cp ++ "/" ++ a) (by
      apply string_ne_empty_of_data_ne_nil
      simp [string_append_data])]
    by_cases h : t = []
    · subst h
      simp [joinSlash]
    · rw [if_neg h, if_neg (by simp), joinSlash_cons₂ a h]
      simp [string_append_assoc]

theorem pathAfter_empty_eq_joinSlash {l : List String} (hs : ∀ s ∈ l, s ≠ "") :
    pathAfter "" l = joinSlash l := by
  cases l with
  | nil => rfl
  | cons a t =>
    rw [pathAfter_cons]
    have ha : a ≠ "" := hs a (by simp)
    have : extendPath "" a = a := by rw [extendPath, if_pos rfl]
    rw [this, pathAfter_ne_cases (fun s hm => hs s (by simp [hm])) a ha]
    by_cases h : t = []
    · subst h; simp [joinSlash]
    · rw [if_neg h, joinSlash_cons₂ a h]

theorem splitPath_mem_ne_empty {p : String} : ∀ s ∈ splitPath p, s ≠ "" := by
  intro s hm
  unfold splitPath at hm
  simpa using (List.mem_filter.mp hm).2

theorem chainIds_append_singleton (r : Remote) (nbId : String) :
    ∀ (init : List String) (x cp : String),
      chainIds r nbId (init ++ [x]) cp =
        match chainIds r nbId init cp with
        | none => none
        | some ids =>
          match r.hpathIds nbId ("/" ++ stripMd (extendPath (pathAfter cp init) x)) with
          | [] => none
          | pid :: _ => some (ids ++ [pid]) := by
  intro init
  induction init with
  | nil =>
    intro x cp
    rw [List.nil_append, chainIds_cons]
    cases hl : r.hpathIds nbId ("/" ++ stripMd (extendPath cp x)) with
    | nil => simp [chainIds, pathAfter, hl]
    | cons pid tl => simp [chainIds, pathAfter, hl]
  | cons a init' ih =>
    intro x cp
    rw [List.cons_append, chainIds_cons, chainIds_cons]
    cases hl : r.hpathIds nbId ("/" ++ stripMd (extendPath cp a)) with
    | nil => rfl
    | cons pid tl =>
      rw [ih x (extendPath cp a), pathAfter_cons]
      cases hc : chainIds r nbId init' (extendPath cp a) with
      | none => rfl
      | some ids =>
        cases r.hpathIds nbId
            ("/" ++ stripMd (extendPath (pathAfter (extendPath cp a) init') x)) with
        | nil => rfl
        | cons pid' tl' => simp

/-! ## The `.md` suffix cannot straddle a path separator -/

theorem endsWithMd_iff (s : String) :
    endsWithMd s = true ↔ ∃ l, s.data.reverse = 'd' :: 'm' :: '.' :: l := by
  unfold endsWithMd
  split
  · next l heq => simp [heq]
  · next hne =>
    simp only [Bool.false_eq_true, false_iff, not_exists]
    intro l hl
    exact hne l hl

theorem string_data_ne_nil_of_ne_empty {s : String} (h : s ≠ "") : s.data ≠ [] := by
  intro h0
  apply h
  apply String.ext
  rw [h0]

theorem endsWithMd_append_seg {a x : String} (hx : x ≠ "") (hmd : endsWithMd x = false) :
    endsWithMd (a ++ "/" ++ x) = false := by
  rw [← Bool.not_eq_true, endsWithMd_iff]
  rintro ⟨l, hl⟩
  have hdata : (a ++ "/" ++ x).data = a.data ++ '/' :: x.data := by
    rw [string_append_data, string_append_data]
    have h1 : ("/" : String).data = ['/'] := rfl
    rw [h1, List.append_assoc]
    rfl
  rw [hdata, List.reverse_append, List.reverse_cons] at hl
  cases hx2 : x.data.reverse with
  | nil =>
    exact string_data_ne_nil_of_ne_empty hx
      (by simpa using congrArg List.reverse hx2)
  | cons c1 t1 =>
    rw [hx2] at hl
    cases t1 with
    | nil =>
      simp only [List.cons_append, List.nil_append] at hl
      injection hl with e1 hl2
      injection hl2 with e2 hl3
      exact absurd e2 (by decide)
    | cons c2 t2 =>
      cases t2 with
      | nil =>
        simp only [List.cons_append, List.nil_append] at hl
        injection hl with e1 hl2
        injection hl2 with e2 hl3
        injection hl3 with e3 hl4
        exact absurd e3 (by decide)
      | cons c3 t3 =>
        simp only [List.cons_append, List.nil_append] at hl
        injection hl with e1 hl2
        injection hl2 with e2 hl3
        injection hl3 with e3 hl4
        have : endsWithMd x = true := by
          rw [endsWithMd_iff]
          exact ⟨t3, by rw [hx2, e1, e2, e3]⟩
        rw [this] at hmd
        exact absurd hmd (by decide)

theorem stripMd_extendPath_md (q x : String) :
    stripMd (extendPath q (x ++ ".md")) = extendPath q x := by
  unfold extendPath
  by_cases hq : q = ""
  · rw [if_pos hq, if_pos hq, stripMd_append_md]
  · rw [if_neg hq, if_neg hq, ← string_append_assoc, stripMd_append_md]

theorem stripMd_extendPath_noMd {x : String} (q : String) (hx : x ≠ "")
    (hmd : endsWithMd x = false) : stripMd (extendPath q x) = extendPath q x := by
  unfold extendPath
  by_cases hq : q = ""
  · rw [if_pos hq, stripMd_of_not_endsWithMd hmd]
  · rw [if_neg hq, stripMd_of_not_endsWithMd (endsWithMd_append_seg hx hmd)]

/-! ## Shape of the built real path -/

theorem appendReal_ne_slash {i : String} (rp : String) (hi : i ≠ "") :
    appendReal rp i ≠ "/" := by
  have hlen : i.data.length ≠ 0 := by
    intro h0
    exact string_data_ne_nil_of_ne_empty hi (List.eq_nil_of_length_eq_zero h0)
  unfold appendReal
  by_cases hrp : rp = "/"
  · rw [if_pos hrp]
    apply string_ne_of_data_length_ne
    rw [string_append_data, List.length_append]
    have h1 : ("/" : String).data.length = 1 := rfl
    rw [h1]
    omega
  · rw [if_neg hrp]
    apply string_ne_of_data_length_ne
    rw [string_append_data, string_append_data, List.length_append, List.length_append]
    have h1 : ("/" : String).data.length = 1 := rfl
    rw [h1]
    omega

theorem markLast_ne_nil {ids : List String} (h : ids ≠ []) : markLast ids ≠ [] := by
  cases ids with
  | nil => exact absurd rfl h
  | cons i rest =>
    unfold markLast
    by_cases hr : rest = []
    · rw [if_pos hr]; simp
    · rw [if_neg hr]; simp

theorem appendReal_appendReal {i : String} (rp s : String) (hi : i ≠ "") :
    appendReal (appendReal rp i) s = appendReal rp (i ++ "/" ++ s) := by
  rw [appendReal, if_neg (appendReal_ne_slash rp hi)]
  unfold appendReal
  by_cases hrp : rp = "/"
  · rw [if_pos hrp, if_pos hrp]
    simp [string_append_assoc]
  · rw [if_neg hrp, if_neg hrp]
    simp [string_append_assoc]

theorem buildDoc_eq_markLast : ∀ {ids : List String}, ids ≠ [] → (∀ i ∈ ids, i ≠ "") →
    ∀ rp, buildDoc rp ids = appendReal rp (joinSlash (markLast ids)) := by
  intro ids
  induction ids with
  | nil => intro h; exact absurd rfl h
  | cons i rest ih =>
    intro _ hne rp
    by_cases hr : rest = []
    · subst hr
      rw [buildDoc, if_pos rfl, markLast, if_pos rfl]
      rfl
    · rw [buildDoc, if_neg hr, markLast, if_neg hr,
        ih hr (fun j hj => hne j (by simp [hj])) (appendReal rp i),
        appendReal_appendReal rp _ (hne i (by simp)),
        joinSlash_cons₂ _ (markLast_ne_nil hr)]

theorem buildDoc_append_last : ∀ (ids : List String) (t rp : String),
    buildDoc rp (ids ++ [t]) = appendReal (buildParent rp ids) (t ++ ".sy") := by
  intro ids
  induction ids with
  | nil => intro t rp; rfl
  | cons i rest ih =>
    intro t rp
    show (if rest ++ [t] = [] then appendReal rp (i ++ ".sy")
        else buildDoc (appendReal rp i) (rest ++ [t])) = _
    rw [if_neg (show ¬(rest ++ [t] = []) by simp), ih]
    rfl

theorem buildDoc_ends_sy : ∀ {ids : List String}, ids ≠ [] → ∀ rp,
    ∃ q, buildDoc rp ids = q ++ ".sy" := by
  intro ids
  induction ids with
  | nil => intro h; exact absurd rfl h
  | cons i rest ih =>
    intro _ rp
    by_cases hr : rest = []
    · subst hr
      rw [buildDoc, if_pos rfl]
      unfold appendReal
      by_cases hrp : rp = "/"
      · rw [if_pos hrp]
        exact ⟨"/" ++ i, by simp [string_append_assoc]⟩
      · rw [if_neg hrp]
        exact ⟨rp ++ "/" ++ i, by simp [string_append_assoc]⟩
    · rw [buildDoc, if_neg hr]
      exact ih hr _

theorem append_sy_ne_slash (q : String) : q ++ ".sy" ≠ "/" := by
  apply string_ne_of_data_length_ne
  rw [string_append_data, List.length_append]
  have h1 : (".sy" : String).data.length = 3 := rfl
  have h2 : ("/" : String).data.length = 1 := rfl
  rw [h1, h2]
  omega

theorem append_sy_ne_empty (q : String) : q ++ ".sy" ≠ "" := by
  apply string_ne_of_data_length_ne
  rw [string_append_data, List.length_append]
  have h1 : (".sy" : String).data.length = 3 := rfl
  have h2 : ("" : String).data.length = 0 := rfl
  rw [h1, h2]
  omega

/-! ## Bridge for the container branch -/

theorem folderResolve_ok_iff (r : Remote) (nbId : String) {parts : List String}
    (hp : parts ≠ []) (hs : ∀ s ∈ parts, s ≠ "") (out : String) :
    folderResolve r nbId parts = Except.ok out ↔
      ∃ ids, chainIds r nbId parts "" = some ids ∧ out = buildDoc "/" ids := by
  have hdecomp : parts.dropLast ++ [parts.getLast hp] = parts :=
    List.dropLast_append_getLast hp
  have hsInit : ∀ s ∈ parts.dropLast, s ≠ "" :=
    fun s hm => hs s (List.dropLast_subset _ hm)
  have hTarget : "/" ++ stripMd (extendPath (pathAfter "" parts.dropLast)
      (parts.getLast hp)) = "/" ++ stripMd (joinSlash parts) := by
    rw [pathAfter_empty_eq_joinSlash hsInit, extendPath_joinSlash hsInit, hdecomp]
  constructor
  · intro hok
    unfold folderResolve at hok
    cases hpl : parentLoop r nbId parts.dropLast "" "/" with
    | error e => rw [hpl] at hok; exact absurd hok (by simp)
    | ok parentRealPath =>
      rw [hpl] at hok
      obtain ⟨ids0, hc0, hrp0⟩ := (parentLoop_ok_iff r nbId _ _ _ _).mp hpl
      cases hl : r.hpathIds nbId ("/" ++ stripMd (joinSlash parts)) with
      | nil => rw [hl] at hok; exact absurd hok (by simp)
      | cons tid tl =>
        rw [hl] at hok
        simp only [Except.ok.injEq] at hok
        refine ⟨ids0 ++ [tid], ?_, ?_⟩
        · rw [← hdecomp, chainIds_append_singleton, hc0, hTarget, hl]
        · rw [← hok, buildDoc_append_last, hrp0]
  · rintro ⟨ids, hc, hout⟩
    rw [← hdecomp, chainIds_append_singleton, hTarget] at hc
    cases hc0 : chainIds r nbId parts.dropLast "" with
    | none => rw [hc0] at hc; simp at hc
    | some ids0 =>
      rw [hc0] at hc
      cases hl : r.hpathIds nbId ("/" ++ stripMd (joinSlash parts)) with
      | nil => rw [hl] at hc; simp at hc
      | cons tid tl =>
        rw [hl] at hc
        simp only [Option.some.injEq] at hc
        unfold folderResolve
        rw [(parentLoop_ok_iff r nbId _ _ _ _).mpr ⟨ids0, hc0, rfl⟩]
        rw [hl, hout, ← hc, buildDoc_append_last]

theorem folderResolve_error_msg (r : Remote) (nbId : String) (parts : List String)
    (m : String) (h : folderResolve r nbId parts = Except.error m) :
    ∃ t, m = "Cannot find " ++ t := by
  unfold folderResolve at h
  cases hpl : parentLoop r nbId parts.dropLast "" "/" with
  | error e =>
    rw [hpl] at h
    simp only [Except.error.injEq] at h
    obtain ⟨t, ht⟩ := parentLoop_error_msg r nbId _ _ _ _ hpl
    exact ⟨"path: " ++ t, by rw [← h, ht, ← string_append_assoc]; rfl⟩
  | ok parentRealPath =>
    rw [hpl] at h
    cases hl : r.hpathIds nbId ("/" ++ stripMd (joinSlash parts)) with
    | nil =>
      rw [hl] at h
      simp only [Except.error.injEq] at h
      exact ⟨"target document: " ++ ("/" ++ stripMd (joinSlash parts)), by
        rw [← h, ← string_append_assoc]; rfl⟩
    | cons tid tl =>
      rw [hl] at h
      exact absurd h (by simp)

/-! ## Main characterisation of successful resolution -/

theorem convert_ok_chain (r : Remote) (cache : List (String × String)) (path nb : String)
    (ts : List String) (res : ResolveOk)
    (hsplit : splitPath path = nb :: ts) (hts : ts ≠ [])
    (hok : convertPathToRealPath r cache path = Except.ok res) :
    lookupNotebookId cache r nb = some res.notebookId ∧
      ∃ ids, chainIds r res.notebookId ts "" = some ids ∧ res.realPath = buildDoc "/" ids := by
  have hs : ∀ s ∈ ts, s ≠ "" := fun s hm =>
    splitPath_mem_ne_empty s (by rw [hsplit]; exact List.mem_cons_of_mem _ hm)
  unfold convertPathToRealPath at hok
  rw [hsplit] at hok
  dsimp only at hok
  cases hnb : lookupNotebookId cache r nb with
  | none => rw [hnb] at hok; exact absurd hok (by simp)
  | some nbId =>
    rw [hnb] at hok
    dsimp only at hok
    rw [dif_neg hts] at hok
    by_cases hmd : endsWithMd (ts.getLast hts) = true
    · rw [if_pos hmd] at hok
      cases hdl : docLoop r nbId ts "" "/" with
      | error e => rw [hdl] at hok; exact absurd hok (by simp)
      | ok rp =>
        rw [hdl] at hok
        simp only [Except.ok.injEq] at hok
        obtain ⟨ids, hc, hb⟩ := (docLoop_ok_iff r nbId ts "" "/" rp).mp hdl
        subst hok
        exact ⟨rfl, ids, hc, hb⟩
    · rw [if_neg hmd] at hok
      cases hfr : folderResolve r nbId ts with
      | error e => rw [hfr] at hok; exact absurd hok (by simp)
      | ok rp =>
        rw [hfr] at hok
        simp only [Except.ok.injEq] at hok
        obtain ⟨ids, hc, hb⟩ := (folderResolve_ok_iff r nbId hts hs rp).mp hfr
        subst hok
        exact ⟨rfl, ids, hc, hb⟩

theorem chainIds_none_of_pre_empty (r : Remote) (nbId : String) :
    ∀ (pre suf : List String) (cp : String), pre ≠ [] →
      r.hpathIds nbId ("/" ++ stripMd (pathAfter cp pre)) = [] →
      chainIds r nbId (pre ++ suf) cp = none := by
  intro pre
  induction pre with
  | nil => intro suf cp h; exact absurd rfl h
  | cons a pre' ih =>
    intro suf cp _ hempty
    rw [List.cons_append, chainIds_cons]
    by_cases hp' : pre' = []
    · subst hp'
      rw [show pathAfter cp [a] = extendPath cp a from rfl] at hempty
      rw [hempty]
    · cases hl : r.hpathIds nbId ("/" ++ stripMd (extendPath cp a)) with
      | nil => rfl
      | cons pid tl =>
        rw [ih suf (extendPath cp a) hp' hempty]
        rfl

theorem chainIds_some_pre_lookup (r : Remote) (nbId : String) {ts : List String}
    {cp : String} {ids : List String} (h : chainIds r nbId ts cp = some ids) :
    ∀ pre suf : List String, ts = pre ++ suf → pre ≠ [] →
      r.hpathIds nbId ("/" ++ stripMd (pathAfter cp pre)) ≠ [] := by
  intro pre suf hsplit hpre hempty
  rw [hsplit, chainIds_none_of_pre_empty r nbId pre suf cp hpre hempty] at h
  exact absurd h (by simp)

theorem convert_error_of_chain_none (r : Remote) (cache : List (String × String))
    (path nb nbId : String) (ts : List String)
    (hsplit : splitPath path = nb :: ts) (hts : ts ≠ [])
    (hnb : lookupNotebookId cache r nb = some nbId)
    (hchain : chainIds r nbId ts "" = none) :
    ∃ t, convertPathToRealPath r cache path = Except.error ("Cannot find " ++ t) := by
  have hs : ∀ s ∈ ts, s ≠ "" := fun s hm =>
    splitPath_mem_ne_empty s (by rw [hsplit]; exact List.mem_cons_of_mem _ hm)
  unfold convertPathToRealPath
  rw [hsplit]
  dsimp only
  rw [hnb]
  dsimp only
  rw [dif_neg hts]
  by_cases hmd : endsWithMd (ts.getLast hts) = true
  · rw [if_pos hmd]
    obtain ⟨m, hm⟩ := except_error_of_no_ok (docLoop r nbId ts "" "/") (by
      intro out hout
      obtain ⟨ids, hc, _⟩ := (docLoop_ok_iff r nbId ts "" "/" out).mp hout
      rw [hc] at hchain
      exact absurd hchain (by simp))
    rw [hm]
    obtain ⟨t, ht⟩ := docLoop_error_msg r nbId ts "" "/" m hm
    refine ⟨"path: " ++ t, ?_⟩
    rw [ht]
    have h2 : ("Cannot find path: " : String) = "Cannot find " ++ "path: " := rfl
    rw [h2, string_append_assoc]
  · rw [if_neg hmd]
    obtain ⟨m, hm⟩ := except_error_of_no_ok (folderResolve r nbId ts) (by
      intro out hout
      obtain ⟨ids, hc, _⟩ := (folderResolve_ok_iff r nbId hts hs out).mp hout
      rw [hc] at hchain
      exact absurd hchain (by simp))
    rw [hm]
    obtain ⟨t, ht⟩ := folderResolve_error_msg r nbId ts m hm
    exact ⟨t, by rw [ht]⟩

/-! ## A concrete remote store (spec scenario: notebook Work, document Plan
with child Tasks) -/

/-- A concrete remote store used to exercise the resolver: notebook `Work`
with id `nb1`, root document `Plan` with id `d1`, child document `Tasks`
with id `d2`. -/
def exRemote : Remote where
  notebooks := [("Work", "nb1")]
  hpathIds := fun nbId h =>
    if nbId = "nb1" then
      if h = "/Plan" then ["d1"]
      else if h = "/Plan/Tasks" then ["d2"]
      else []
    else []

theorem getLast_append_x {α : Type} (l : List α) (x : α) (h : l ++ [x] ≠ []) :
    (l ++ [x]).getLast h = x :=
  List.getLast_append_singleton l

/-- Claim C1, counterexample: on the container-form path `/Work/Plan`
(terminal kind is container, not document) the resolver still applies the
`.sy` leaf marker to the final identifier, so the resolved path does not
carry the marker "only when the path's terminal kind is document". -/
theorem containerPath_final_id_marked :
    convertPathToRealPath exRemote [] "/Work/Plan"
        = Except.ok (ResolveOk.mk "nb1" "/d1.sy")
      ∧ endsWithMd "Plan" = false
      ∧ ("/d1.sy" : String) = "/" ++ ("d1" ++ ".sy") := by
  refine ⟨rfl, by decide, by decide⟩

/-- Claim C1 (amended): for every virtual path with a notebook segment and at
least one further segment that resolves successfully, the resolver walks the
post-notebook segments left to right, resolving each cumulative prefix to the
first identifier returned by the hierarchical-path lookup, and the resolved
path is the slash-joined chain of those identifiers in which no intermediate
identifier carries the `.sy` leaf marker and the final identifier always
carries it (for container-form as well as document-form paths). -/
theorem resolvedPath_is_marked_id_chain
    (r : Remote) (cache : List (String × String)) (path nb : String) (ts : List String)
    (res : ResolveOk)
    (hsplit : splitPath path = nb :: ts) (hts : ts ≠ [])
    (hok : convertPathToRealPath r cache path = Except.ok res) :
    lookupNotebookId cache r nb = some res.notebookId ∧
      ∃ ids, chainIds r res.notebookId ts "" = some ids ∧ ids.length = ts.length ∧
        ((∀ i ∈ ids, i ≠ "") → res.realPath = "/" ++ joinSlash (markLast ids)) := by
  obtain ⟨hnb, ids, hc, hb⟩ := convert_ok_chain r cache path nb ts res hsplit hts hok
  refine ⟨hnb, ids, hc, chainIds_length r res.notebookId ts "" ids hc, ?_⟩
  intro hne
  rw [hb, buildDoc_eq_markLast (chainIds_some_ne_nil hts hc) hne "/", appendReal, if_pos rfl]

/-- Claim C1 witness: the amended theorem applied to the concrete store at the
document path `/Work/Plan/Tasks.md`, whose id chain is `d1`, `d2` and whose
resolved path is `/d1/d2.sy`. -/
theorem resolvedPath_is_marked_id_chain_witness :
    lookupNotebookId [] exRemote "Work" = some "nb1" ∧
      ∃ ids, chainIds exRemote "nb1" ["Plan", "Tasks.md"] "" = some ids ∧
        ids.length = (["Plan", "Tasks.md"] : List String).length ∧
        ((∀ i ∈ ids, i ≠ "") → ("/d1/d2.sy" : String) = "/" ++ joinSlash (markLast ids)) :=
  resolvedPath_is_marked_id_chain exRemote [] "/Work/Plan/Tasks.md" "Work"
    ["Plan", "Tasks.md"] (ResolveOk.mk "nb1" "/d1/d2.sy") (by decide) (by decide) rfl

/-- Claim C2: resolving the container form of a path returns exactly the same
(notebook id, resolved path) pair as resolving the document form of the same
path: the container branch resolves the node's own identifier, applies the
`.sy` marker, and appends it to the resolved parent chain. -/
theorem container_doc_same_resolution
    (r : Remote) (cache : List (String × String)) (pDoc pCont nb x : String)
    (init : List String) (res : ResolveOk)
    (hxmd : endsWithMd x = false)
    (hsplitD : splitPath pDoc = nb :: (init ++ [x ++ ".md"]))
    (hsplitC : splitPath pCont = nb :: (init ++ [x]))
    (hok : convertPathToRealPath r cache pDoc = Except.ok res) :
    convertPathToRealPath r cache pCont = Except.ok res := by
  have htsD : (init ++ [x ++ ".md"]) ≠ [] := by simp
  have htsC : (init ++ [x]) ≠ [] := by simp
  have hsC : ∀ s ∈ init ++ [x], s ≠ "" := fun s hm =>
    splitPath_mem_ne_empty s (by rw [hsplitC]; exact List.mem_cons_of_mem _ hm)
  have hx : x ≠ "" := hsC x (by simp)
  obtain ⟨hnb, ids, hcD, hb⟩ := convert_ok_chain r cache pDoc nb _ res hsplitD htsD hok
  have halign : chainIds r res.notebookId (init ++ [x]) "" = some ids := by
    rw [chainIds_append_singleton] at hcD
    rw [chainIds_append_singleton, stripMd_extendPath_noMd _ hx hxmd]
    rw [stripMd_extendPath_md] at hcD
    exact hcD
  unfold convertPathToRealPath
  rw [hsplitC]
  dsimp only
  rw [hnb]
  dsimp only
  rw [dif_neg htsC, getLast_append_x init x htsC, if_neg (by rw [hxmd]; simp),
    (folderResolve_ok_iff r res.notebookId htsC hsC (buildDoc "/" ids)).mpr ⟨ids, halign, rfl⟩]
  dsimp only
  rw [← hb]

/-- Claim C2 witness: the theorem applied to the concrete store: the document
form `/Work/Plan/Tasks.md` resolves to `/d1/d2.sy`, hence so does the
container form `/Work/Plan/Tasks`. -/
theorem container_doc_same_resolution_witness :
    convertPathToRealPath exRemote [] "/Work/Plan/Tasks"
      = Except.ok (ResolveOk.mk "nb1" "/d1/d2.sy") :=
  container_doc_same_resolution exRemote [] "/Work/Plan/Tasks.md" "/Work/Plan/Tasks"
    "Work" "Tasks" ["Plan"] (ResolveOk.mk "nb1" "/d1/d2.sy")
    (by decide) (by decide) (by decide) rfl

/-- Claim C3: when the hierarchical-path lookup for some cumulative prefix of
the post-notebook segments (the terminal segment included) returns zero
identifiers, resolution fails with a `Cannot find`-style NotFound error; and a
successful resolution never returns an empty or root resolved path. -/
theorem empty_lookup_resolution_fails
    (r : Remote) (cache : List (String × String)) (path nb : String) (ts : List String)
    (hsplit : splitPath path = nb :: ts) (hts : ts ≠ []) :
    (∀ nbId : String, lookupNotebookId cache r nb = some nbId →
      ∀ pre suf : List String, ts = pre ++ suf → pre ≠ [] →
        r.hpathIds nbId ("/" ++ stripMd (joinSlash pre)) = [] →
        ∃ t, convertPathToRealPath r cache path = Except.error ("Cannot find " ++ t)) ∧
    (∀ res : ResolveOk, convertPathToRealPath r cache path = Except.ok res →
      res.realPath ≠ "" ∧ res.realPath ≠ "/") := by
  have hs : ∀ s ∈ ts, s ≠ "" := fun s hm =>
    splitPath_mem_ne_empty s (by rw [hsplit]; exact List.mem_cons_of_mem _ hm)
  constructor
  · intro nbId hnb pre suf hpre hprene hempty
    have hspre : ∀ s ∈ pre, s ≠ "" := fun s hm => hs s (by rw [hpre]; simp [hm])
    have hchain : chainIds r nbId ts "" = none := by
      rw [hpre]
      exact chainIds_none_of_pre_empty r nbId pre suf "" hprene
        (by rw [pathAfter_empty_eq_joinSlash hspre]; exact hempty)
    exact convert_error_of_chain_none r cache path nb nbId ts hsplit hts hnb hchain
  · intro res hok
    obtain ⟨hnb, ids, hc, hb⟩ := convert_ok_chain r cache path nb ts res hsplit hts hok
    have hne : ids ≠ [] := chainIds_some_ne_nil hts hc
    obtain ⟨ids0, t, ht⟩ : ∃ ids0 t, ids = ids0 ++ [t] := by
      cases hrev : ids.reverse with
      | nil => exact absurd (by simpa using congrArg List.reverse hrev) hne
      | cons a tl =>
        exact ⟨tl.reverse, a, by
          have := congrArg List.reverse hrev
          simpa using this⟩
    obtain ⟨q, hq⟩ := buildDoc_ends_sy (by rw [ht]; simp : ids ≠ []) ("/" : String)
    rw [hb, hq]
    exact ⟨append_sy_ne_empty q, append_sy_ne_slash q⟩

/-- Claim C3 witness: at `/Work/Missing.md` the lookup for `/Missing` returns
zero identifiers and resolution fails with a NotFound-style error; at
`/Work/Plan.md` resolution succeeds with a non-empty, non-root resolved path. -/
theorem empty_lookup_resolution_fails_witness :
    (∃ t, convertPathToRealPath exRemote [] "/Work/Missing.md"
        = Except.error ("Cannot find " ++ t)) ∧
    (("/d1.sy" : String) ≠ "" ∧ ("/d1.sy" : String) ≠ "/") := by
  constructor
  · exact (empty_lookup_resolution_fails exRemote [] "/Work/Missing.md" "Work"
      ["Missing.md"] (by decide) (by decide)).1 "nb1" (by decide)
      ["Missing.md"] [] (by decide) (by decide) (by decide)
  · exact (empty_lookup_resolution_fails exRemote [] "/Work/Plan.md" "Work"
      ["Plan.md"] (by decide) (by decide)).2 (ResolveOk.mk "nb1" "/d1.sy") rfl

/-! ## The TTL file cache (`FileCache`) -/

/-- A cache entry: `{data, timestamp, ttl}`. -/
structure CacheEntry (α : Type) where
  data : α
  timestamp : Int
  ttl : Int
deriving DecidableEq

/-- The `FileCache` class: a map from keys to entries plus the instance-level
ttl (`DEFAULT_TTL` when constructed with no argument). -/
structure FileCache (α : Type) where
  instTtl : Int
  entries : List (String × CacheEntry α)
deriving DecidableEq

/-- Five minutes, `5 * 60 * 1000` milliseconds. -/
def DEFAULT_TTL : Int := 5 * 60 * 1000

/-- The method `FileCache.set`: store an entry stamped `now` whose ttl is
`customTtl || this.ttl` — JS `||` falls back to the instance ttl when
`customTtl` is absent or zero. -/
def cacheSet {α : Type} (now : Int) (key : String) (v : α) (customTtl : Option Int)
    (c : FileCache α) : FileCache α :=
  let t : Int :=
    match customTtl with
    | none => c.instTtl
    | some t0 => if t0 = 0 then c.instTtl else t0
  FileCache.mk c.instTtl
    ((key, CacheEntry.mk v now t) :: c.entries.filter fun e => e.1 ≠ key)

/-- The method `FileCache.get`: a missing key is a miss; a present entry is a miss and is
evicted when `now - entry.timestamp > entry.ttl`; otherwise its data is
returned.  Returns the value and the possibly-updated cache. -/
def cacheGet {α : Type} (now : Int) (key : String) (c : FileCache α) :
    Option α × FileCache α :=
  match c.entries.lookup key with
  | none => (none, c)
  | some e =>
    if now - e.timestamp > e.ttl then
      (none, FileCache.mk c.instTtl (c.entries.filter fun p => p.1 ≠ key))
    else (some e.data, c)

theorem lookup_filter_ne {α : Type} (key : String) :
    ∀ l : List (String × CacheEntry α), (l.filter fun p => p.1 ≠ key).lookup key = none := by
  intro l
  induction l with
  | nil => rfl
  | cons e t ih =>
    obtain ⟨k, v⟩ := e
    by_cases he : k = key
    · rw [List.filter_cons_of_neg (by simp [he])]
      exact ih
    · rw [List.filter_cons_of_pos (by simp [he]), List.lookup_cons]
      have hb : (key == k) = false := by
        rw [beq_eq_false_iff_ne]
        exact fun h => he h.symm
      rw [hb]
      exact ih

/-- Claim C4, counterexample: `set(k, v, 0)` stores the entry with the
default instance ttl because JS `customTtl || this.ttl` treats `0` as falsy,
so a `get` more than `0` after the `set` still returns the value instead of
the miss the claim predicts. -/
theorem cache_zero_ttl_not_expired :
    (cacheGet 1 "k" (cacheSet 0 "k" "v" (some 0) (FileCache.mk DEFAULT_TTL []))).1
      = some "v" ∧ (1 : Int) - 0 > 0 := by
  refine ⟨rfl, by decide⟩

/-- Claim C4 (amended): for every positive ttl `t`, a `get` issued at the
`set`'s own timestamp returns the value; a `get` at most `t` after the `set`
returns the value; and a `get` more than `t` after the `set` is a miss that
evicts the entry — a present entry is valid iff `now - storedAt <= ttl`. -/
theorem cache_roundtrip_ttl (c : FileCache String) (k v : String) (t now1 now2 now3 : Int)
    (ht : 0 < t) :
    (cacheGet now1 k (cacheSet now1 k v (some t) c)).1 = some v ∧
    (now2 - now1 ≤ t → (cacheGet now2 k (cacheSet now1 k v (some t) c)).1 = some v) ∧
    (now3 - now1 > t →
      (cacheGet now3 k (cacheSet now1 k v (some t) c)).1 = none ∧
      (cacheGet now3 k (cacheSet now1 k v (some t) c)).2.entries.lookup k = none) := by
  have htne : t ≠ 0 := by omega
  have hset : cacheSet now1 k v (some t) c
      = FileCache.mk c.instTtl
          ((k, CacheEntry.mk v now1 t) :: c.entries.filter fun e => e.1 ≠ k) := by
    unfold cacheSet
    dsimp only
    rw [if_neg htne]
  have hlook : ((k, CacheEntry.mk v now1 t) :: c.entries.filter fun e => e.1 ≠ k).lookup k
      = some (CacheEntry.mk v now1 t) := by
    rw [List.lookup_cons, beq_self_eq_true]
  refine ⟨?_, ?_, ?_⟩
  · unfold cacheGet
    rw [hset]
    dsimp only
    rw [hlook]
    dsimp only
    rw [if_neg (by omega)]
  · intro hle
    unfold cacheGet
    rw [hset]
    dsimp only
    rw [hlook]
    dsimp only
    rw [if_neg (by omega)]
  · intro hgt
    unfold cacheGet
    rw [hset]
    dsimp only
    rw [hlook]
    dsimp only
    rw [if_pos (by omega)]
    refine ⟨rfl, ?_⟩
    dsimp only
    rw [List.filter_cons_of_neg (by simp)]
    exact lookup_filter_ne k (c.entries.filter fun e => e.1 ≠ k)

/-- Claim C4 witness: the amended round-trip at ttl 10 with reads at elapsed
0, 5 and 11 on an initially empty cache. -/
theorem cache_roundtrip_ttl_witness :
    (cacheGet 0 "k" (cacheSet 0 "k" "v" (some 10) (FileCache.mk DEFAULT_TTL []))).1
        = some "v" ∧
    (cacheGet 5 "k" (cacheSet 0 "k" "v" (some 10) (FileCache.mk DEFAULT_TTL []))).1
        = some "v" ∧
    (cacheGet 11 "k" (cacheSet 0 "k" "v" (some 10) (FileCache.mk DEFAULT_TTL []))).1
        = none := by
  have h := cache_roundtrip_ttl (FileCache.mk DEFAULT_TTL []) "k" "v" 10 0 5 11 (by decide)
  exact ⟨h.1, h.2.1 (by decide), (h.2.2 (by decide)).1⟩

/-! ## The filesystem facade (`SiyuanFileSystemProvider`) -/

/-- The two `vscode.FileSystemError` classes the facade throws. -/
inductive FsErr
  | fileNotFound (msg : String)
  | noPermissions (msg : String)
deriving DecidableEq

/-- Result of one facade operation: the returned value or error, the cache
afterwards, and how many remote content-read and content-mutation calls were
issued. -/
structure OpResult (α : Type) where
  result : Except FsErr α
  cache : FileCache String
  remoteReads : Nat
  remoteWrites : Nat

/-- The cache key `file:instanceId:documentId` used by the facade. -/
def cacheKeyFor (instanceId documentId : String) : String :=
  "file:" ++ instanceId ++ ":" ++ documentId

/-- The remote-fetch tail of `readFile`: fetch the document content, cache it
on success (a failure is rethrown as `FileNotFound`).  One remote read call is
issued either way. -/
def readFetch (now : Int) (key : String) (remote : Except FsErr String)
    (c : FileCache String) : OpResult String :=
  match remote with
  | Except.error _ => OpResult.mk (Except.error (FsErr.fileNotFound "")) c 1 0
  | Except.ok content =>
      OpResult.mk (Except.ok content) (cacheSet now key content none c) 1 0

/-- The method `SiyuanFileSystemProvider.readFile`: check the cache first; JS
`if (cached)` treats both a miss and a cached empty string as falsy, so only a
non-empty cached string short-circuits the remote fetch. -/
def readFileOp (now : Int) (instanceId documentId : String)
    (remote : Except FsErr String) (c : FileCache String) : OpResult String :=
  let key := cacheKeyFor instanceId documentId
  let g := cacheGet now key c
  match g.1 with
  | some cached =>
    if cached = "" then readFetch now key remote g.2
    else OpResult.mk (Except.ok cached) g.2 0 0
  | none => readFetch now key remote g.2

/-- The method `SiyuanFileSystemProvider.writeFile`: issue the remote block update; only
on success write the new content through to the cache (a failure is rethrown
as `NoPermissions` with the cache untouched). -/
def writeFileOp (now : Int) (instanceId documentId content : String)
    (updateResult : Except FsErr Unit) (c : FileCache String) : OpResult Unit :=
  match updateResult with
  | Except.error _ =>
      OpResult.mk (Except.error (FsErr.noPermissions "Failed to write file")) c 0 1
  | Except.ok _ =>
      OpResult.mk (Except.ok ())
        (cacheSet now (cacheKeyFor instanceId documentId) content none c) 0 1

/-- The method `SiyuanFileSystemProvider.rename`: always throws `NoPermissions`
("Rename operation not supported") before touching the remote or the cache. -/
def renameOp (c : FileCache String) : OpResult Unit :=
  OpResult.mk (Except.error (FsErr.noPermissions "Rename operation not supported")) c 0 0

/-- The method `SiyuanFileSystemProvider.createDirectory`: always throws `NoPermissions`
("Directory creation not supported") before touching the remote or the cache. -/
def createDirectoryOp (c : FileCache String) : OpResult Unit :=
  OpResult.mk (Except.error (FsErr.noPermissions "Directory creation not supported")) c 0 0

/-- Claim C5, counterexample: writing the empty content succeeds and is
written through to the cache, but the immediately following read still issues
a remote content-read call, because `if (cached)` treats the cached empty
string as a miss. -/
theorem write_empty_read_hits_remote :
    (writeFileOp 0 "inst" "doc1" "" (Except.ok ()) (FileCache.mk DEFAULT_TTL [])).result
        = Except.ok () ∧
    (readFileOp 0 "inst" "doc1" (Except.ok "")
        (writeFileOp 0 "inst" "doc1" "" (Except.ok ())
          (FileCache.mk DEFAULT_TTL [])).cache).remoteReads = 1 := by
  refine ⟨rfl, rfl⟩

/-- Claim C5 (amended): for every non-empty content, if `writeFile` succeeds
then an immediately following `readFile` returns exactly that content from
the cache, issuing no remote content-read call: a successful write stores the
new content in the cache (write-through) rather than invalidating it. -/
theorem write_through_read_cached (now : Int) (instanceId documentId content : String)
    (remote : Except FsErr String) (c : FileCache String)
    (hc : 0 ≤ c.instTtl) (hne : content ≠ "") :
    (writeFileOp now instanceId documentId content (Except.ok ()) c).result
        = Except.ok () ∧
    (readFileOp now instanceId documentId remote
        (writeFileOp now instanceId documentId content (Except.ok ()) c).cache).result
        = Except.ok content ∧
    (readFileOp now instanceId documentId remote
        (writeFileOp now instanceId documentId content (Except.ok ()) c).cache).remoteReads
        = 0 := by
  have h1 : ¬(now - now > c.instTtl) := by omega
  have h2 : ¬(c.instTtl < 0) := by omega
  refine ⟨rfl, ?_, ?_⟩ <;>
  · simp [readFileOp, writeFileOp, cacheGet, cacheSet, List.lookup_cons, h1, h2, hne]

/-- Claim C5 witness: the amended theorem at the concrete content `new text`
on an empty cache. -/
theorem write_through_read_cached_witness :
    (writeFileOp 0 "inst" "doc1" "new text" (Except.ok ())
        (FileCache.mk DEFAULT_TTL [])).result = Except.ok () ∧
    (readFileOp 0 "inst" "doc1" (Except.error (FsErr.fileNotFound ""))
        (writeFileOp 0 "inst" "doc1" "new text" (Except.ok ())
          (FileCache.mk DEFAULT_TTL [])).cache).result = Except.ok "new text" ∧
    (readFileOp 0 "inst" "doc1" (Except.error (FsErr.fileNotFound ""))
        (writeFileOp 0 "inst" "doc1" "new text" (Except.ok ())
          (FileCache.mk DEFAULT_TTL [])).cache).remoteReads = 0 :=
  write_through_read_cached 0 "inst" "doc1" "new text"
    (Except.error (FsErr.fileNotFound "")) (FileCache.mk DEFAULT_TTL [])
    (by decide) (by decide)

/-- Claim C6: when the remote content-replace call inside `writeFile` fails,
the cache is left exactly as it was — no optimistic or partial update — so a
subsequent read behaves exactly as it would have before the failed write. -/
theorem write_failure_cache_untouched (now : Int) (instanceId documentId content : String)
    (e : FsErr) (c : FileCache String) :
    (writeFileOp now instanceId documentId content (Except.error e) c).cache = c ∧
    (writeFileOp now instanceId documentId content (Except.error e) c).result
        = Except.error (FsErr.noPermissions "Failed to write file") ∧
    ∀ (now2 : Int) (remote : Except FsErr String),
      readFileOp now2 instanceId documentId remote
          (writeFileOp now instanceId documentId content (Except.error e) c).cache
        = readFileOp now2 instanceId documentId remote c :=
  ⟨rfl, rfl, fun _ _ => rfl⟩

/-- Claim C7: `rename` and `createDirectory` always fail with the
"not supported" `NoPermissions` error, issue no remote call, and leave the
cache exactly as it was. -/
theorem rename_createDirectory_unsupported (c : FileCache String) :
    ((renameOp c).result
        = Except.error (FsErr.noPermissions "Rename operation not supported") ∧
      (renameOp c).cache = c ∧ (renameOp c).remoteReads = 0 ∧
      (renameOp c).remoteWrites = 0) ∧
    ((createDirectoryOp c).result
        = Except.error (FsErr.noPermissions "Directory creation not supported") ∧
      (createDirectoryOp c).cache = c ∧ (createDirectoryOp c).remoteReads = 0 ∧
      (createDirectoryOp c).remoteWrites = 0) :=
  ⟨⟨rfl, rfl, rfl, rfl⟩, ⟨rfl, rfl, rfl, rfl⟩⟩

/-! ## Directory listing (`SiYuanApiClient.listFiles`) -/

/-- One file record returned by `/api/filetree/listDocsByPath`. -/
structure RemoteFile where
  id : String
  name : String
  size : Nat
  mtime : Nat
  ctime : Nat
  subFileCount : Option Nat
deriving DecidableEq

/-- The `vscode.FileType`-style entry kind. -/
inductive EntryType
  | file
  | directory
deriving DecidableEq

/-- One entry of a directory listing result. -/
structure FsEntry where
  name : String
  type : EntryType
  size : Nat
  ctime : Nat
  mtime : Nat
deriving DecidableEq

/-- The per-child body of the `listFiles` loop: push a file entry named
`name.replace('.sy','') + '.md'`, and when `subFileCount` is present and
positive also push a directory entry named `displayName.replace('.md','')`. -/
def entriesOfFile (f : RemoteFile) : List FsEntry :=
  let displayName := removeFirstSy f.name ++ ".md"
  let fileEntry := FsEntry.mk displayName EntryType.file f.size (f.ctime * 1000) (f.mtime * 1000)
  match f.subFileCount with
  | some n =>
    if 0 < n then
      [fileEntry,
        FsEntry.mk (removeFirstMd displayName) EntryType.directory 0
          (f.ctime * 1000) (f.mtime * 1000)]
    else [fileEntry]
  | none => [fileEntry]

/-- The `listFiles` result accumulation over the children returned by the
remote store (`result.push` inside `forEach`). -/
def listEntries (files : List RemoteFile) : List FsEntry :=
  files.foldl (fun acc f => acc ++ entriesOfFile f) []

/-- Whether a child is also presented as a folder: `subFileCount !== undefined
&& subFileCount > 0`. -/
def hasSub (f : RemoteFile) : Bool :=
  match f.subFileCount with
  | some n => decide (0 < n)
  | none => false

/-- Whether a pattern occurs as a contiguous substring of a character list. -/
def containsPat (pat : List Char) : List Char → Bool
  | [] => pat.isEmpty
  | c :: rest => pat.isPrefixOf (c :: rest) || containsPat pat rest

theorem removeFirstOcc_md_append : ∀ l : List Char,
    containsPat ['.', 'm', 'd'] l = false →
    removeFirstOcc ['.', 'm', 'd'] (l ++ ['.', 'm', 'd']) = l := by
  intro l
  induction l with
  | nil => intro _; rfl
  | cons c rest ih =>
    intro h
    simp only [containsPat, Bool.or_eq_false_iff] at h
    obtain ⟨hpre, hrest⟩ := h
    rw [List.cons_append, removeFirstOcc]
    cases rest with
    | nil =>
      rw [if_neg (by simp [List.isPrefixOf])]
      rw [List.nil_append]
      have : removeFirstOcc ['.', 'm', 'd'] ['.', 'm', 'd'] = [] := rfl
      rw [this]
    | cons c2 rest2 =>
      cases rest2 with
      | nil =>
        rw [if_neg (by simp [List.isPrefixOf])]
        rw [ih hrest]
      | cons c3 rest3 =>
        rw [if_neg (by
          simp only [List.cons_append, List.isPrefixOf, Bool.and_eq_true, beq_iff_eq]
          rintro ⟨h1, h2, h3, _⟩
          subst h1
          subst h2
          subst h3
          simp [List.isPrefixOf] at hpre)]
        rw [ih hrest]

theorem removeFirstMd_append {base : String}
    (h : containsPat ['.', 'm', 'd'] base.data = false) :
    removeFirstMd (base ++ ".md") = base := by
  unfold removeFirstMd
  have hdata : (base ++ ".md").data = base.data ++ ['.', 'm', 'd'] := rfl
  rw [hdata, removeFirstOcc_md_append base.data h]

theorem listEntries_eq_flatMap_aux (files : List RemoteFile) :
    ∀ acc : List FsEntry,
      files.foldl (fun acc f => acc ++ entriesOfFile f) acc
        = acc ++ files.flatMap entriesOfFile := by
  induction files with
  | nil => intro acc; simp
  | cons f rest ih =>
    intro acc
    rw [List.foldl_cons, ih, List.flatMap_cons, List.append_assoc]

/-- Claim C9, counterexample: a child whose name contains `.md` before the
suffix position gets a mangled directory-entry name: for the child named
`a.mdb.sy` (with children), the file entry is `a.mdb.md` (base name `a.mdb`)
but the directory entry is `ab.md`, because JS `replace('.md','')` removes the
first occurrence; the two entries do not share a base name. -/
theorem listEntries_md_name_mangled :
    entriesOfFile (RemoteFile.mk "idX" "a.mdb.sy" 5 0 0 (some 2))
        = [FsEntry.mk "a.mdb.md" EntryType.file 5 0 0,
           FsEntry.mk "ab.md" EntryType.directory 0 0 0] ∧
    ("ab.md" : String) ≠ "a.mdb" := by
  refine ⟨rfl, by decide⟩

/-- Claim C9 (amended): the listing contributes, for every child, one
file-typed entry, plus one directory-typed entry exactly when the child's
sub-file count is present and positive; when the child's base name (its name
with the first `.sy` removed) contains no `.md` occurrence, the two entries
share that base name — the file entry is `base.md` and the directory entry is
`base`.  Children whose base name contains `.md` get a mangled directory
name (see the counterexample). -/
theorem listEntries_child_contribution (files : List RemoteFile) :
    listEntries files = files.flatMap entriesOfFile ∧
    (listEntries files).length
        = files.length + (files.filter hasSub).length ∧
    ∀ f : RemoteFile,
      containsPat ['.', 'm', 'd'] (removeFirstSy f.name).data = false →
      (hasSub f = true →
        entriesOfFile f
          = [FsEntry.mk (removeFirstSy f.name ++ ".md") EntryType.file f.size
              (f.ctime * 1000) (f.mtime * 1000),
             FsEntry.mk (removeFirstSy f.name) EntryType.directory 0
              (f.ctime * 1000) (f.mtime * 1000)]) ∧
      (hasSub f = false →
        entriesOfFile f
          = [FsEntry.mk (removeFirstSy f.name ++ ".md") EntryType.file f.size
              (f.ctime * 1000) (f.mtime * 1000)]) := by
  refine ⟨listEntries_eq_flatMap_aux files [], ?_, ?_⟩
  · rw [listEntries, listEntries_eq_flatMap_aux files [], List.nil_append]
    induction files with
    | nil => rfl
    | cons f rest ih =>
      rw [List.flatMap_cons, List.length_append, ih]
      by_cases hf : hasSub f = true
      · have hlen : (entriesOfFile f).length = 2 := by
          unfold hasSub at hf
          unfold entriesOfFile
          cases hsc : f.subFileCount with
          | none => rw [hsc] at hf; simp at hf
          | some n =>
            rw [hsc] at hf
            simp only [decide_eq_true_eq] at hf
            dsimp only
            rw [if_pos hf]
            rfl
        rw [hlen, List.filter_cons_of_pos hf]
        simp only [List.length_cons]
        omega
      · have hlen : (entriesOfFile f).length = 1 := by
          unfold hasSub at hf
          unfold entriesOfFile
          cases hsc : f.subFileCount with
          | none => rfl
          | some n =>
            rw [hsc] at hf
            simp only [decide_eq_true_eq] at hf
            dsimp only
            rw [if_neg hf]
            rfl
        rw [hlen, List.filter_cons_of_neg (by simpa using hf)]
        simp only [List.length_cons]
        omega
  · intro f hmd
    constructor
    · intro hf
      unfold hasSub at hf
      unfold entriesOfFile
      cases hsc : f.subFileCount with
      | none => rw [hsc] at hf; simp at hf
      | some n =>
        rw [hsc] at hf
        simp only [decide_eq_true_eq] at hf
        dsimp only
        rw [if_pos hf, removeFirstMd_append hmd]
    · intro hf
      unfold hasSub at hf
      unfold entriesOfFile
      cases hsc : f.subFileCount with
      | none => rfl
      | some n =>
        rw [hsc] at hf
        simp only [decide_eq_false_iff_not, decide_eq_true_eq] at hf
        dsimp only
        rw [if_neg (by simpa using hf)]

/-- Claim C9 witness: the amended theorem applied to two concrete children,
`Plan.sy` with two sub-files (two entries: `Plan.md` file and `Plan`
directory) and `Note.sy` with none (one file entry). -/
theorem listEntries_child_contribution_witness :
    listEntries [RemoteFile.mk "d1" "Plan.sy" 7 0 0 (some 2),
        RemoteFile.mk "d3" "Note.sy" 4 0 0 none]
      = [FsEntry.mk "Plan.md" EntryType.file 7 0 0,
         FsEntry.mk "Plan" EntryType.directory 0 0 0,
         FsEntry.mk "Note.md" EntryType.file 4 0 0] := by
  have h := listEntries_child_contribution
    [RemoteFile.mk "d1" "Plan.sy" 7 0 0 (some 2), RemoteFile.mk "d3" "Note.sy" 4 0 0 none]
  have h1 := (h.2.2 (RemoteFile.mk "d1" "Plan.sy" 7 0 0 (some 2)) (by decide)).1 (by decide)
  have h2 := (h.2.2 (RemoteFile.mk "d3" "Note.sy" 4 0 0 none) (by decide)).2 (by decide)
  rw [h.1, List.flatMap_cons, List.flatMap_cons, h1, h2]
  decide

/-! ## The aggregated documents view (`getAllDocuments` / `readDirectory`) -/

/-- A document as collected by `getAllDocuments`. -/
structure DocInfo where
  id : String
  title : String
deriving DecidableEq

/-- Per-file mapping in `getAllDocuments`:
`title = file.name.replace('.sy','') || 'Untitled'` (JS `||`: the empty string
falls back to `Untitled`). -/
def docOfFile (f : RemoteFile) : DocInfo :=
  DocInfo.mk f.id
    (if removeFirstSy f.name = "" then "Untitled" else removeFirstSy f.name)

/-- The notebook loop of `getAllDocuments`: push each notebook's root listing;
a notebook whose listing fails is skipped (caught and logged) and contributes
nothing. -/
def getAllDocsLoop (listDocs : String → Except String (List RemoteFile)) :
    List String → List DocInfo → List DocInfo
  | [], acc => acc
  | nbId :: rest, acc =>
    match listDocs nbId with
    | Except.error _ => getAllDocsLoop listDocs rest acc
    | Except.ok files => getAllDocsLoop listDocs rest (acc ++ files.map docOfFile)

/-- The method `SiyuanFileSystemProvider.getAllDocuments`: list every notebook's root
documents, then `slice(0, 200)`; if the notebook listing itself fails, the
outer catch returns the empty list. -/
def getAllDocuments (notebooksResult : Except String (List String))
    (listDocs : String → Except String (List RemoteFile)) : List DocInfo :=
  match notebooksResult with
  | Except.error _ => []
  | Except.ok nbIds => (getAllDocsLoop listDocs nbIds []).take 200

/-- The `documents` branch of `SiyuanFileSystemProvider.readDirectory`: map
each collected document to the entry `(id + '.md', FileType.File)`. -/
def readDirectoryDocuments (notebooksResult : Except String (List String))
    (listDocs : String → Except String (List RemoteFile)) : List (String × EntryType) :=
  (getAllDocuments notebooksResult listDocs).map fun d => (d.id ++ ".md", EntryType.file)

theorem getAllDocsLoop_eq_flatMap (listDocs : String → Except String (List RemoteFile)) :
    ∀ (nbIds : List String) (acc : List DocInfo),
      getAllDocsLoop listDocs nbIds acc
        = acc ++ nbIds.flatMap fun nbId =>
            match listDocs nbId with
            | Except.error _ => []
            | Except.ok files => files.map docOfFile := by
  intro nbIds
  induction nbIds with
  | nil => intro acc; simp [getAllDocsLoop]
  | cons nbId rest ih =>
    intro acc
    rw [getAllDocsLoop]
    cases hd : listDocs nbId with
    | error e =>
      dsimp only
      rw [ih, List.flatMap_cons, hd]
      dsimp only
      rw [List.nil_append]
    | ok files =>
      dsimp only
      rw [ih, List.flatMap_cons, hd]
      dsimp only
      rw [List.append_assoc]

/-- Claim C10: the aggregated `documents` view concatenates the root document
listings of every notebook in order — a notebook whose listing fails
contributes nothing without failing the whole operation, and a failing
notebook-list call yields the empty listing — and the combined list is
truncated to its first 200 elements, so the view never returns more than 200
entries. -/
theorem documents_view_truncated (notebooksResult : Except String (List String))
    (listDocs : String → Except String (List RemoteFile)) :
    (readDirectoryDocuments notebooksResult listDocs).length ≤ 200 ∧
    (∀ nbIds : List String, notebooksResult = Except.ok nbIds →
      readDirectoryDocuments notebooksResult listDocs
        = ((nbIds.flatMap fun nbId =>
            match listDocs nbId with
            | Except.error _ => []
            | Except.ok files => files.map docOfFile).take 200).map
              fun d => (d.id ++ ".md", EntryType.file)) ∧
    (∀ e : String, notebooksResult = Except.error e →
      readDirectoryDocuments notebooksResult listDocs = []) := by
  refine ⟨?_, ?_, ?_⟩
  · unfold readDirectoryDocuments getAllDocuments
    cases notebooksResult with
    | error e => simp
    | ok nbIds =>
      rw [List.length_map, List.length_take]
      omega
  · intro nbIds h
    subst h
    unfold readDirectoryDocuments getAllDocuments
    dsimp only
    rw [getAllDocsLoop_eq_flatMap, List.nil_append]
  · intro e h
    subst h
    rfl

/-- Claim C10 witness: with three notebooks of which the middle one fails,
the view is the concatenation of the two successful listings. -/
theorem documents_view_truncated_witness :
    readDirectoryDocuments (Except.ok ["n1", "n2", "n3"])
        (fun nbId =>
          if nbId = "n1" then Except.ok [RemoteFile.mk "d1" "A.sy" 1 0 0 none]
          else if nbId = "n2" then Except.error "closed"
          else Except.ok [RemoteFile.mk "d9" "B.sy" 1 0 0 none])
      = [("d1.md", EntryType.file), ("d9.md", EntryType.file)] := by
  rw [(documents_view_truncated (Except.ok ["n1", "n2", "n3"]) _).2.1 ["n1", "n2", "n3"] rfl]
  decide

/-! ## Concurrent cold notebook resolution (step-interleaving model)

The notebook-lookup section of `convertPathToRealPath` is an async function:
between reading the notebook cache and the completion of the awaited
`lsNotebooks` request, other tasks run.  Each resolver task is therefore a
two-step machine: step 1 reads the cache and, on a miss, issues the remote
listing call and suspends; step 2 consumes the response, stores the name→id
mapping, and finishes.  The code keeps no record of in-flight requests, so
what happens under interleaving depends only on the schedule. -/

/-- State of one resolver task. -/
inductive TaskSt
  | start
  | waiting
  | done (res : Option String)
deriving DecidableEq

/-- Shared state: the notebook name→id cache, the number of `lsNotebooks`
calls issued so far, and the tasks. -/
structure Sys where
  cache : List (String × String)
  calls : Nat
  tasks : List TaskSt
deriving DecidableEq

/-- The cache read at the top of the lookup, with JS truthiness (an empty id
is falsy and treated as a miss). -/
def cacheLookupTruthy (cache : List (String × String)) (name : String) : Option String :=
  match cache.lookup name with
  | some id => if id = "" then none else some id
  | none => none

/-- Advance task `i` by one step. -/
def stepTask (notebooks : List (String × String)) (name : String) (s : Sys) (i : Nat) : Sys :=
  match s.tasks.get? i with
  | none => s
  | some TaskSt.start =>
    match cacheLookupTruthy s.cache name with
    | some id => Sys.mk s.cache s.calls (s.tasks.set i (TaskSt.done (some id)))
    | none => Sys.mk s.cache (s.calls + 1) (s.tasks.set i TaskSt.waiting)
  | some TaskSt.waiting =>
    match notebooks.find? fun nb => nb.1 = name with
    | some nb =>
      Sys.mk ((nb.1, nb.2) :: s.cache) s.calls
        (s.tasks.set i (TaskSt.done (if nb.2 = "" then none else some nb.2)))
    | none => Sys.mk s.cache s.calls (s.tasks.set i (TaskSt.done none))
  | some (TaskSt.done _) => s

/-- Run a schedule (a list of task indices) from a state. -/
def runSched (notebooks : List (String × String)) (name : String) (sched : List Nat)
    (s : Sys) : Sys :=
  sched.foldl (stepTask notebooks name) s

/-- The cold two-task system: both resolvers start with an unpopulated
notebook cache. -/
def coldSys2 : Sys := Sys.mk [] 0 [TaskSt.start, TaskSt.start]

/-- Claim C8, counterexample: two concurrent resolvers for the same notebook
name against a cold registry, interleaved so that both observe the empty
cache before either response arrives (schedule 0,1,0,1), issue two
`lsNotebooks` calls, not exactly one; both still receive the identical
result. -/
theorem concurrent_cold_resolve_two_calls :
    (runSched [("Work", "nb1")] "Work" [0, 1, 0, 1] coldSys2).calls = 2 ∧
    (runSched [("Work", "nb1")] "Work" [0, 1, 0, 1] coldSys2).tasks
      = [TaskSt.done (some "nb1"), TaskSt.done (some "nb1")] := by
  refine ⟨rfl, rfl⟩

/-- Claim C8 (amended): the resolver keeps no in-flight request record, so
each concurrent caller that observes the cold cache issues its own
list-notebooks call: two fully interleaved cold resolvers issue two calls
(and each receives the identical result found in the listing), while a caller
that runs only after another has completed is served from the populated cache
and issues none — sequential schedule: exactly one call. -/
theorem cold_resolve_call_count (notebooks : List (String × String)) (name id : String)
    (hfind : (notebooks.find? fun nb => nb.1 = name) = some (name, id)) (hid : id ≠ "") :
    (runSched notebooks name [0, 1, 0, 1] (Sys.mk [] 0 [TaskSt.start, TaskSt.start])).calls
        = 2 ∧
    (runSched notebooks name [0, 1, 0, 1] (Sys.mk [] 0 [TaskSt.start, TaskSt.start])).tasks
        = [TaskSt.done (some id), TaskSt.done (some id)] ∧
    (runSched notebooks name [0, 0, 1] (Sys.mk [] 0 [TaskSt.start, TaskSt.start])).calls
        = 1 ∧
    (runSched notebooks name [0, 0, 1] (Sys.mk [] 0 [TaskSt.start, TaskSt.start])).tasks
        = [TaskSt.done (some id), TaskSt.done (some id)] := by
  refine ⟨?_, ?_, ?_, ?_⟩ <;>
    simp [runSched, stepTask, cacheLookupTruthy, hfind, hid, List.lookup_cons]

/-- Claim C8 witness: the amended theorem at the concrete notebook listing
containing `Work → nb1`. -/
theorem cold_resolve_call_count_witness :
    (runSched [("Work", "nb1")] "Work" [0, 0, 1]
        (Sys.mk [] 0 [TaskSt.start, TaskSt.start])).calls = 1 ∧
    (runSched [("Work", "nb1")] "Work" [0, 0, 1]
        (Sys.mk [] 0 [TaskSt.start, TaskSt.start])).tasks
      = [TaskSt.done (some "nb1"), TaskSt.done (some "nb1")] := by
  have h := cold_resolve_call_count [("Work", "nb1")] "Work" "nb1" (by decide) (by decide)
  exact ⟨h.2.2.1, h.2.2.2⟩

end SiYuanFS
